import Mathlib

/-!
# Verification of the jira-downloader core

Shallow embedding of the core of the `jira-downloader` repository
(`src/jira.rs`, `src/downloader.rs`, `src/storage.rs`, `src/app.rs`)
together with proofs settling the specification claims.

Modelling conventions:
* Rust `String` values are modelled by Lean `String` / `List Char`;
  byte-level operations (UTF-8 indexing) are modelled explicitly via a
  UTF-8 encoder where the source indexes bytes.
* Machine integers (`u64`, `u32`) are modelled by `Nat`; none of the
  verified operations can overflow in a way the claims depend on.
* The filesystem is modelled by explicit directory listings; network
  responses by explicit response records; `serde_json` parsing by an
  abstract parse function parameter.
* Fallible operations return `Option` / `Except`.
-/

namespace JiraDL

/-! ## Generic character-list helpers (model Rust `str` operations) -/

/-- Model of Rust `char::is_whitespace` restricted to the ASCII whitespace
that can realistically surround pasted issue keys (Lean's `Char.isWhitespace`). -/
def isWs (c : Char) : Bool := c.isWhitespace

/-- Model of Rust `str::trim`: drop leading and trailing whitespace. -/
def trimChars (cs : List Char) : List Char :=
  ((cs.dropWhile isWs).reverse.dropWhile isWs).reverse

/-- Model of Rust `str::starts_with`. -/
def startsWithL (cs pre : List Char) : Bool := cs.take pre.length == pre

/-- Model of Rust `str::split(sep)`: split on every occurrence of a single
separator character; adjacent separators produce empty fragments, and the
result is never empty (matching `"".split(c) == [""]`). -/
def splitOnChar (sep : Char) : List Char → List (List Char)
  | [] => [[]]
  | c :: rest =>
    let r := splitOnChar sep rest
    if c == sep then
      [] :: r
    else
      match r with
      | [] => [[c]]
      | h :: t => (c :: h) :: t

/-- Model of Rust `s.split('?').next().unwrap_or("")`: the part of the
string before the first `'?'`. -/
def beforeQuery (cs : List Char) : List Char := cs.takeWhile (fun c => !(c == '?'))

/-- Model of Rust `str::to_uppercase` on the ASCII strings produced by the
issue-key validator (on ASCII it agrees with per-char uppercasing). -/
def upperChars (cs : List Char) : List Char := cs.map Char.toUpper

/-- Model of Rust `str::to_lowercase` on ASCII strings (status names). -/
def lowerChars (cs : List Char) : List Char := cs.map Char.toLower

/-- Model of Rust `str::contains(substring)`. -/
def containsSub (hay needle : List Char) : Bool := decide (needle <:+: hay)

/-- Model of Rust `str::trim_start`. -/
def trimStartChars (cs : List Char) : List Char := cs.dropWhile isWs

/-! ## UTF-8 encoding (for the byte-indexed checks in `storage.rs`) -/

/-- UTF-8 encoding of a single scalar value, as byte values. -/
def charUtf8 (c : Char) : List Nat :=
  let n := c.toNat
  if n < 0x80 then [n]
  else if n < 0x800 then [0xC0 + n / 0x40, 0x80 + n % 0x40]
  else if n < 0x10000 then
    [0xE0 + n / 0x1000, 0x80 + (n / 0x40) % 0x40, 0x80 + n % 0x40]
  else
    [0xF0 + n / 0x40000, 0x80 + (n / 0x1000) % 0x40, 0x80 + (n / 0x40) % 0x40, 0x80 + n % 0x40]

/-- UTF-8 byte sequence of a string, modelling Rust `str::as_bytes` /
`str::len` (which are byte-based). -/
def utf8Bytes (cs : List Char) : List Nat := (cs.map charUtf8).flatten

/-! ## `downloader.rs`: per-item state machine -/

/-- `FileState` from `src/downloader.rs`. -/
inductive FileState where
  | pending
  | downloading (downloaded : Nat) (total : Nat)
  | done
  | alreadyOnDisk
  | error (msg : String)
deriving DecidableEq, Repr

/-- `FileState::progress_fraction` from `src/downloader.rs`.
`f32` arithmetic is modelled by exact rationals: the claims depend only on
*when* a division happens, never on rounding of its value. -/
def FileState.progress_fraction : FileState → Option ℚ
  | .downloading downloaded total =>
      if total > 0 then some ((downloaded : ℚ) / (total : ℚ)) else none
  | .done => some 1
  | .alreadyOnDisk => some 1
  | _ => none

/-- The percentage shown by `FileState::label` when `total > 0`:
`(downloaded as f32 / total as f32 * 100.0) as u32`, modelled as exact
truncation toward zero of the nonnegative rational. -/
def pctOf (downloaded total : Nat) : Nat :=
  (((downloaded : ℚ) / (total : ℚ)) * 100).floor.toNat

/-- `FileState::label` from `src/downloader.rs`. -/
def FileState.label : FileState → String
  | .pending => "Pending"
  | .downloading downloaded total =>
      if total > 0 then toString (pctOf downloaded total) ++ "%"
      else toString downloaded ++ " B"
  | .done => "Done ✓"
  | .alreadyOnDisk => "On disk ✓"
  | .error e => "Error: " ++ e

/-- `Attachment` from `src/jira.rs` (`created` as epoch milliseconds). -/
structure Attachment where
  id : String
  filename : String
  size : Nat
  created : Int
  content : String
  mime_type : String
deriving DecidableEq, Repr

/-- `DownloadItem` from `src/downloader.rs` (the `Arc<Mutex<FileState>>`
cell is modelled by its current value: `current_state`). -/
structure DownloadItem where
  attachment : Attachment
  state : FileState
  selected : Bool
deriving DecidableEq, Repr

/-- The loop-body condition of `DownloadManager::start_all_downloads`:
`item.selected` and `matches!(state, Pending | Error(_) | Done)`. -/
def should_start (it : DownloadItem) : Bool :=
  it.selected &&
    match it.state with
    | .pending => true
    | .error _ => true
    | .done => true
    | _ => false

/-- `DownloadManager::start_all_downloads` from `src/downloader.rs`,
rendered as the list of items for which `start_download` is invoked
(spawning is modelled as inclusion in this list). -/
def start_all_downloads (items : List DownloadItem) : List DownloadItem :=
  items.filter should_start

/-! ## `jira.rs` / `downloader.rs`: one download unit -/

/-- The response to the binary `GET {attachment.content}` request in
`JiraClient::download_attachment`: HTTP status, the declared
`Content-Length` (absent when the server does not declare one), and the
streamed body as a list of chunks (`none` models a mid-stream error). -/
structure DlResponse where
  status : Nat
  content_length : Option Nat
  chunks : List (Option Nat)
deriving DecidableEq, Repr

/-- Rust `reqwest::StatusCode::is_success`: the 2xx range. -/
def is_success (s : Nat) : Bool := 200 ≤ s && s < 300

/-- The chunk loop of `JiraClient::download_attachment`: returns the
sequence of `(downloaded, total)` pairs passed to `on_progress`, and
whether the stream completed without error. -/
def stream_run (total downloaded : Nat) : List (Option Nat) → List (Nat × Nat) × Bool
  | [] => ([], true)
  | none :: _ => ([], false)
  | some sz :: rest =>
      let d := downloaded + sz
      let (ps, ok) := stream_run total d rest
      ((d, total) :: ps, ok)

/-- `JiraClient::download_attachment` from `src/jira.rs` (lines 344-376):
`none` for the response models a transport failure of `send()`. Returns
the progress-callback trace and the overall result (`ok` carries the
total number of bytes buffered). -/
def download_attachment (resp : Option DlResponse) : List (Nat × Nat) × Except String Nat :=
  match resp with
  | none => ([], .error "Request failed")
  | some r =>
    if !(is_success r.status) then ([], .error "HTTP error")
    else
      let total := r.content_length.getD 0
      let (ps, ok) := stream_run total 0 r.chunks
      (ps, if ok then .ok (match ps.getLast? with | some p => p.1 | none => 0)
           else .error "Stream error")

/-- The spawned body of `DownloadManager::start_download` from
`src/downloader.rs` (lines 89-131), rendered as the ordered sequence of
values assigned to the item's state cell: first
`Downloading{downloaded: 0, total: attachment.size}`, then one
`Downloading{downloaded, total}` per received chunk (via `on_progress`),
then `Done` / `Error` depending on the download result and on
`save_attachment` (whose success is the `save_ok` parameter). -/
def start_download_states (att : Attachment) (resp : Option DlResponse)
    (save_ok : Bool) : List FileState :=
  let first := FileState.downloading 0 att.size
  let (ps, res) := download_attachment resp
  let tail := ps.map fun p => FileState.downloading p.1 p.2
  let final :=
    match res with
    | .ok _ => if save_ok then FileState.done else FileState.error "save failed"
    | .error e => FileState.error e
  first :: (tail ++ [final])

/-- The total the progress callback receives, per
`JiraClient::download_attachment`: the declared content length, `0` when
absent (and irrelevant when the request itself fails). -/
def declared_total (resp : Option DlResponse) : Nat :=
  match resp with
  | some r => r.content_length.getD 0
  | none => 0

/-! ## `jira.rs`: issue fetching with API-version fallback -/

/-- The result of `JiraClient::get_raw`: HTTP status, the `Content-Type`
header value (empty when absent) and the response body. -/
structure RawResponse where
  status : Nat
  content_type : String
  body : String
deriving DecidableEq, Repr

/-- `JiraClient::check_html_response` from `src/jira.rs` (lines 150-166),
as the HTML-detection predicate (the diagnostic text is irrelevant to
the claims). -/
def check_html_response (r : RawResponse) : Bool :=
  containsSub r.content_type.data "text/html".data ||
    startsWithL (trimStartChars r.body.data) "<!doctype".data ||
    startsWithL (trimStartChars r.body.data) "<html".data

/-- The decoded body of a successful issue request: the fields of
`JiraIssueResponse` from `src/jira.rs` after `serde_json` parsing. -/
structure JiraIssueResponse where
  key : String
  summary : String
  status_name : String
  attachment : List Attachment
deriving DecidableEq, Repr

/-- `IssueInfo` from `src/jira.rs`. -/
structure IssueInfo where
  key : String
  summary : String
  status : String
  attachments : List Attachment
deriving DecidableEq, Repr

/-- The canonical `IssueInfo` built by `JiraClient::fetch_issue` from a
parsed response (lines 286-305): attachments are copied field by field. -/
def issue_of_response (j : JiraIssueResponse) : IssueInfo :=
  { key := j.key
    summary := j.summary
    status := j.status_name
    attachments := j.attachment.map fun a =>
      { id := a.id
        filename := a.filename
        size := a.size
        created := a.created
        content := a.content
        mime_type := a.mime_type } }

/-- The error classes surfaced by `JiraClient::fetch_issue`; each
constructor corresponds to one `format!`/`Err` site in the source. -/
inductive JiraError where
  | transport
  | htmlPage
  | httpStatus (code : Nat)
  | parseError
  | notFoundAllVersions
deriving DecidableEq, Repr

/-- The version loop of `JiraClient::fetch_issue` (`src/jira.rs` lines
259-306). `get ver` models `get_raw` on the per-version issue URL for
the fixed key (`none` = transport failure); `parse` models `serde_json`
decoding of the body. A `404` answer on version `"3"` falls through to
the next version; every other non-2xx answer is terminal. -/
def fetch_issue_loop (get : String → Option RawResponse)
    (parse : String → Option JiraIssueResponse) :
    List String → Except JiraError IssueInfo
  | [] => .error .notFoundAllVersions
  | ver :: rest =>
    match get ver with
    | none => .error .transport
    | some r =>
      if check_html_response r then .error .htmlPage
      else if r.status == 404 && ver == "3" then fetch_issue_loop get parse rest
      else if !(is_success r.status) then .error (.httpStatus r.status)
      else
        match parse r.body with
        | none => .error .parseError
        | some j => .ok (issue_of_response j)

/-- `JiraClient::fetch_issue`: try API v3 first, fall back to v2. -/
def fetch_issue (get : String → Option RawResponse)
    (parse : String → Option JiraIssueResponse) : Except JiraError IssueInfo :=
  fetch_issue_loop get parse ["3", "2"]

/-! ## `storage.rs`: control files -/

/-- `ControlFile` from `src/storage.rs` (`last_checked` as epoch
milliseconds). -/
structure ControlFile where
  issue_key : String
  issue_summary : String
  issue_status : String
  last_checked : Int
  marked_for_deletion : Bool
deriving DecidableEq, Repr

/-- `ControlFile::new` from `src/storage.rs` (lines 17-25); the ambient
`Utc::now()` is the explicit `now` parameter. -/
def ControlFile.new (key summary status : String) (now : Int) : ControlFile :=
  { issue_key := key
    issue_summary := summary
    issue_status := status
    last_checked := now
    marked_for_deletion := false }

/-- `ControlFile::is_closed` from `src/storage.rs` (lines 27-30). -/
def ControlFile.is_closed (c : ControlFile) : Bool :=
  let s := lowerChars c.issue_status.data
  s == "done".data || s == "closed".data || s == "resolved".data ||
    containsSub s "clos".data || containsSub s "resolv".data

/-- The status-check update applied in `App::render_incidents_manager`
(`src/app.rs` lines 541-546) when a status check for an incident
succeeds: store the fresh status and check time, then recompute
`marked_for_deletion` from the updated record. -/
def check_status_update (c : ControlFile) (status : String) (now : Int) : ControlFile :=
  let c1 := { c with issue_status := status, last_checked := now }
  { c1 with marked_for_deletion := c1.is_closed }

/-! ## `storage.rs`: incident scanning and date folders -/

/-- `IncidentFolder` from `src/storage.rs` (the path is the subdirectory
name; `folder_size` is the recursive byte size). -/
structure IncidentFolder where
  path : String
  control : ControlFile
  folder_size : Nat
deriving DecidableEq, Repr

/-- One immediate entry of the base directory, as observed by
`StorageManager::scan_incidents`: its name, whether it is a directory,
the state of its `.jira_control.json` (`none`: absent; `some none`:
present but unreadable; `some (some s)`: readable with content `s`), and
the recursive byte size `dir_size` computes for it. -/
structure ScanEntry where
  name : String
  is_dir : Bool
  control : Option (Option String)
  size : Nat
deriving DecidableEq, Repr

/-- The loop body of `StorageManager::scan_incidents` (`src/storage.rs`
lines 114-133): skip non-directories, skip entries without a control
file, skip unreadable or unparseable control files, otherwise build an
`IncidentFolder`. `parse` models `serde_json::from_str::<ControlFile>`. -/
def scan_entry (parse : String → Option ControlFile) (e : ScanEntry) :
    Option IncidentFolder :=
  if !e.is_dir then none
  else
    match e.control with
    | none => none
    | some none => none
    | some (some s) =>
      match parse s with
      | none => none
      | some c => some { path := e.name, control := c, folder_size := e.size }

/-- `StorageManager::scan_incidents` from `src/storage.rs` (lines
107-137): an unreadable base directory (`entries = none`) yields the
empty list; otherwise the readable entries are filtered as above and the
result is sorted ascending by issue key (Rust's stable `sort_by` is
modelled by `insertionSort`; the claims about `scan_incidents` are
order-insensitive, and for this comparator any sort yields a
permutation). -/
def scan_incidents (parse : String → Option ControlFile)
    (entries : Option (List ScanEntry)) : List IncidentFolder :=
  match entries with
  | none => []
  | some es =>
    (es.filterMap (scan_entry parse)).insertionSort
      (fun a b => a.control.issue_key ≤ b.control.issue_key)

/-- The date-folder filter of `StorageManager::latest_date_folder`
(`src/storage.rs` lines 152-158): `name.len() == 10` and bytes 4 and 7
equal to `b'-'` (45). Rust's `len`/`as_bytes` are byte-based, hence the
explicit UTF-8 encoding. No digit check is performed. -/
def date_name_ok (name : String) : Bool :=
  let bs := utf8Bytes name.data
  bs.length == 10 && bs[4]? == some 45 && bs[7]? == some 45

/-- `StorageManager::latest_date_folder` from `src/storage.rs` (lines
141-165). `entries` lists the `(name, is_dir)` pairs of the issue
directory (`none` = unreadable). The result is the chosen date
subdirectory name, `none` meaning the fall-back to the issue root.
Rust's ascending `sort()` + `last()` is modelled by `insertionSort` +
`getLast?` (for a linear order, every ascending sort of a list yields
the same sorted list, and path order on a shared parent is name order). -/
def latest_date_folder (entries : Option (List (String × Bool))) : Option String :=
  let date_dirs : List String :=
    match entries with
    | none => []
    | some es => (es.filter (fun e => e.2 && date_name_ok e.1)).map (fun e => e.1)
  (date_dirs.insertionSort (· ≤ ·)).getLast?

/-- Modelled from the spec: the strict `YYYY-MM-DD` shape — four digits,
a dash, two digits, a dash, two digits (spec-side definition for
comparison with the source's `date_name_ok` filter). -/
def strict_date_shape (name : String) : Bool :=
  match name.data with
  | [y1, y2, y3, y4, s1, m1, m2, s2, d1, d2] =>
    [y1, y2, y3, y4].all Char.isDigit && s1 == '-' &&
      [m1, m2].all Char.isDigit && s2 == '-' && [d1, d2].all Char.isDigit
  | _ => false

/-! ## `jira.rs`: attachment timestamp parsing

`deserialize_jira_date` (`src/jira.rs` lines 68-83) tries, in order,
`DateTime::parse_from_rfc3339`, `parse_from_str` with
`"%Y-%m-%dT%H:%M:%S%.3f%z"`, and `parse_from_str` with
`"%Y-%m-%dT%H:%M:%S%z"`, converting the result to UTC. The three chrono
parsers are modelled below; instants are epoch milliseconds. chrono's
calendar range validation is modelled by the basic bounds checks in
`parseYmdHms`, and chrono's offset parsing accepts the colon as
optional; neither leniency affects the values of the claim. -/

/-- Numeric value of a digit string. -/
def digitsVal (cs : List Char) : Nat := cs.foldl (fun a c => 10 * a + (c.toNat - 48)) 0

/-- Read exactly `n` ASCII digits. -/
def readDigits (n : Nat) (cs : List Char) : Option (Nat × List Char) :=
  let pre := cs.take n
  if pre.length = n ∧ pre.all Char.isDigit then some (digitsVal pre, cs.drop n)
  else none

/-- Consume one expected character. -/
def expect (c : Char) : List Char → Option (List Char)
  | x :: rest => if x == c then some rest else none
  | [] => none

/-- Parse the common `YYYY-MM-DDTHH:MM:SS` date-time core, with the
basic range checks chrono performs. -/
def parseYmdHms (cs : List Char) :
    Option (Nat × Nat × Nat × Nat × Nat × Nat × List Char) := do
  let (y, r1) ← readDigits 4 cs
  let r2 ← expect '-' r1
  let (mo, r3) ← readDigits 2 r2
  let r4 ← expect '-' r3
  let (d, r5) ← readDigits 2 r4
  let r6 ← expect 'T' r5
  let (h, r7) ← readDigits 2 r6
  let r8 ← expect ':' r7
  let (mi, r9) ← readDigits 2 r8
  let r10 ← expect ':' r9
  let (s, r11) ← readDigits 2 r10
  if 1 ≤ mo ∧ mo ≤ 12 ∧ 1 ≤ d ∧ d ≤ 31 ∧ h ≤ 23 ∧ mi ≤ 59 ∧ s ≤ 59 then
    some (y, mo, d, h, mi, s, r11)
  else none

/-- RFC3339 fractional seconds: optionally a dot followed by at least
one digit; value truncated to milliseconds. -/
def parseFracAny (cs : List Char) : Option (Nat × List Char) :=
  match cs with
  | '.' :: rest =>
    let ds := rest.takeWhile Char.isDigit
    if ds.isEmpty then none
    else some (digitsVal ((ds ++ ['0', '0', '0']).take 3), rest.drop ds.length)
  | _ => some (0, cs)

/-- chrono `%.3f`: nothing, or a dot followed by exactly three digits. -/
def parseFrac3 (cs : List Char) : Option (Nat × List Char) :=
  match cs with
  | '.' :: a :: b :: c :: rest =>
    if [a, b, c].all Char.isDigit then some (digitsVal [a, b, c], rest) else none
  | '.' :: _ => none
  | _ => some (0, cs)

/-- Numeric UTC offset `±HH[:]MM` (colon optional, as chrono parses it),
in seconds. -/
def parseOffsetNum (cs : List Char) : Option (Int × List Char) :=
  match cs with
  | sign :: rest =>
    if sign == '+' || sign == '-' then do
      let (hh, r1) ← readDigits 2 rest
      let r2 := match r1 with
        | ':' :: r => r
        | _ => r1
      let (mm, r3) ← readDigits 2 r2
      let secs : Int := (hh * 3600 + mm * 60 : Nat)
      some (if sign == '-' then -secs else secs, r3)
    else none
  | [] => none

/-- RFC3339 offset: `Z`/`z` or a numeric offset. -/
def parseOffsetRfc (cs : List Char) : Option (Int × List Char) :=
  match cs with
  | 'Z' :: r => some (0, r)
  | 'z' :: r => some (0, r)
  | _ => parseOffsetNum cs

/-- Days from 1970-01-01 to the given civil date (proleptic Gregorian,
year ≥ 1; Hinnant's `days_from_civil`). -/
def daysFromCivil (y mo d : Nat) : Int :=
  let y1 := if mo ≤ 2 then y - 1 else y
  let era := y1 / 400
  let yoe := y1 % 400
  let mp := (mo + 9) % 12
  let doy := (153 * mp + 2) / 5 + (d - 1)
  let doe := yoe * 365 + yoe / 4 - yoe / 100 + doy
  (era * 146097 + doe : Int) - 719468

/-- Epoch milliseconds of a parsed date-time with UTC offset. -/
def epochMillis (y mo d h mi s ms : Nat) (offsetSecs : Int) : Int :=
  daysFromCivil y mo d * 86400000 + ((h * 3600 + mi * 60 + s : Nat) : Int) * 1000 +
    (ms : Int) - offsetSecs * 1000

/-- Model of chrono `DateTime::parse_from_rfc3339`, converted to a UTC
instant in epoch milliseconds. -/
def parse_from_rfc3339 (str : String) : Option Int := do
  let (y, mo, d, h, mi, s, r) ← parseYmdHms str.data
  let (ms, r2) ← parseFracAny r
  let (off, r3) ← parseOffsetRfc r2
  if r3.isEmpty then some (epochMillis y mo d h mi s ms off) else none

/-- Model of chrono `parse_from_str` with `"%Y-%m-%dT%H:%M:%S%.3f%z"`. -/
def parse_jira_frac (str : String) : Option Int := do
  let (y, mo, d, h, mi, s, r) ← parseYmdHms str.data
  let (ms, r2) ← parseFrac3 r
  let (off, r3) ← parseOffsetNum r2
  if r3.isEmpty then some (epochMillis y mo d h mi s ms off) else none

/-- Model of chrono `parse_from_str` with `"%Y-%m-%dT%H:%M:%S%z"`. -/
def parse_jira_plain (str : String) : Option Int := do
  let (y, mo, d, h, mi, s, r) ← parseYmdHms str.data
  let (off, r2) ← parseOffsetNum r
  if r2.isEmpty then some (epochMillis y mo d h mi s 0 off) else none

/-- `deserialize_jira_date` from `src/jira.rs` (lines 68-83): the three
parsers tried in order; `none` models the serde error. -/
def deserialize_jira_date (str : String) : Option Int :=
  match parse_from_rfc3339 str with
  | some t => some t
  | none =>
    match parse_jira_frac str with
    | some t => some t
    | none => parse_jira_plain str

/-! ## `jira.rs`: issue-key parsing -/

/-- Split a character list at the first `'-'`: models
`s.find('-')` followed by the byte slices `&s[..dash_pos]` and
`&s[dash_pos + 1..]` in `is_valid_issue_key` (`src/jira.rs` lines
406-417); `none` when no dash occurs. -/
def splitFirstDash : List Char → Option (List Char × List Char)
  | [] => none
  | c :: t =>
    if c == '-' then some ([], t)
    else
      match splitFirstDash t with
      | none => none
      | some (p, s) => some (c :: p, s)

/-- `is_valid_issue_key` from `src/jira.rs` (lines 406-417): nonempty
ASCII-alphabetic part before the first dash, nonempty all-digit part
after it (`Char.isAlpha` / `Char.isDigit` are exactly Rust's
`is_ascii_alphabetic` / `is_ascii_digit`). -/
def is_valid_issue_keyL (cs : List Char) : Bool :=
  match splitFirstDash cs with
  | none => false
  | some (pre, suf) =>
    !pre.isEmpty && !suf.isEmpty && pre.all Char.isAlpha && suf.all Char.isDigit

/-- String-level wrapper for `is_valid_issue_key`. -/
def is_valid_issue_key (s : String) : Bool := is_valid_issue_keyL s.data

/-- The `/browse/` / `/issues/` scanning loop of `parse_issue_key`
(`src/jira.rs` lines 384-391): walk the `'/'`-separated segments in
order; on a `browse` or `issues` segment followed by another segment
whose part before `'?'` is a valid key, return that key uppercased. -/
def scan_parts : List (List Char) → Option (List Char)
  | p :: next :: rest =>
    if p == "browse".data || p == "issues".data then
      if is_valid_issue_keyL (beforeQuery next) then some (upperChars (beforeQuery next))
      else scan_parts (next :: rest)
    else scan_parts (next :: rest)
  | _ => none

/-- `parse_issue_key` from `src/jira.rs` (lines 380-404). -/
def parse_issue_key (input : String) : Option String :=
  let cs := trimChars input.data
  if startsWithL cs "http".data then
    let parts := splitOnChar '/' cs
    match scan_parts parts with
    | some k => some ⟨k⟩
    | none =>
      match parts.getLast? with
      | some seg =>
        if is_valid_issue_keyL (beforeQuery seg) then some ⟨upperChars (beforeQuery seg)⟩
        else none
      | none => none
  else if is_valid_issue_keyL cs then some ⟨upperChars cs⟩
  else none

/-- Modelled from the spec: the `PREFIX-NUMBER` shape — a maximal
nonempty alphabetic run, then a dash, then a nonempty digit suffix —
matched by a `takeWhile`/`dropWhile` decomposition rather than the
source's first-dash search, for comparison with `is_valid_issue_key`. -/
def spec_key_check (cs : List Char) : Bool :=
  match cs.dropWhile Char.isAlpha with
  | '-' :: rest =>
    !(cs.takeWhile Char.isAlpha).isEmpty && !rest.isEmpty && rest.all Char.isDigit
  | _ => false

/-- Modelled from the spec (amended): the first `/browse/` or `/issues/`
segment immediately followed by a key-shaped segment (query stripped),
phrased as a `find?` over consecutive segment pairs. -/
def spec_url_key (parts : List (List Char)) : Option (List Char) :=
  ((parts.zip parts.tail).find? (fun pq =>
      (pq.1 == "browse".data || pq.1 == "issues".data) &&
        spec_key_check (beforeQuery pq.2))).map
    (fun pq => upperChars (beforeQuery pq.2))

/-- Modelled from the spec (amended): after trimming, an input matching
`PREFIX-NUMBER` is returned uppercased; an input starting with `http`
yields the first `/browse/`- or `/issues/`-extracted key, else the last
path segment (query stripped) when key-shaped, uppercased; every other
input yields none. -/
def parse_issue_key_spec (input : String) : Option String :=
  let cs := trimChars input.data
  if startsWithL cs "http".data then
    let parts := splitOnChar '/' cs
    match spec_url_key parts with
    | some k => some ⟨k⟩
    | none =>
      match parts.getLast? with
      | some seg =>
        if spec_key_check (beforeQuery seg) then some ⟨upperChars (beforeQuery seg)⟩
        else none
      | none => none
  else if spec_key_check cs then some ⟨upperChars cs⟩
  else none

/-! ## `storage.rs`: filename collision resolution -/

/-- Decimal rendering of a natural number (models Rust's `{counter}`
formatting of an integer in `format!`), with structural fuel; fuel
`n + 1` always suffices. -/
def natToDecCore : Nat → Nat → List Char → List Char
  | 0, _, acc => acc
  | fuel + 1, n, acc =>
    let d := Nat.digitChar (n % 10)
    if n < 10 then d :: acc
    else natToDecCore fuel (n / 10) (d :: acc)

/-- Decimal digit string of a natural number. -/
def natToDec (n : Nat) : List Char := natToDecCore (n + 1) n []

/-- The candidate name `format!("{stem}_{counter}{ext}")` from
`resolve_conflict` (`src/storage.rs` line 225). -/
def cand_name (stem ext : List Char) (counter : Nat) : List Char :=
  stem ++ '_' :: (natToDec counter ++ ext)

/-- Index of the last `'.'` at a positive position, if any. -/
def lastDotIdx (cs : List Char) : Option Nat :=
  ((List.range cs.length).filter
    (fun i => decide (0 < i) && (cs[i]? == some '.'))).getLast?

/-- Rust `Path::file_stem` / `Path::extension` on a plain file name
(`src/storage.rs` lines 213-221): split at the last dot when it is not
the leading character; the extension keeps its dot, matching
`format!(".{e}")`. (The path components `"."` and `".."` are not valid
attachment file names and are not modelled.) -/
def splitStemExt (filename : List Char) : List Char × List Char :=
  match lastDotIdx filename with
  | none => (filename, [])
  | some i => (filename.take i, filename.drop i)

/-- The `counter` loop of `resolve_conflict` (`src/storage.rs` lines
223-230), with structural fuel. The source loops unboundedly; fuel
`existing.length + 1` always suffices because among any
`existing.length + 1` distinct candidate names one is unused
(`resolveLoop_finds_least` below), so the fuel-out branch is
unreachable. -/
def resolveLoop (existing : List (List Char)) (stem ext : List Char) :
    Nat → Nat → List Char
  | 0, counter => cand_name stem ext counter
  | fuel + 1, counter =>
    if cand_name stem ext counter ∈ existing then
      resolveLoop existing stem ext fuel (counter + 1)
    else cand_name stem ext counter

/-- `resolve_conflict` from `src/storage.rs` (lines 206-231): `existing`
lists the names already present in the target directory (modelling
`path.exists()` for names under `dir`). -/
def resolve_conflict (existing : List (List Char)) (filename : List Char) :
    List Char :=
  if filename ∈ existing then
    resolveLoop existing (splitStemExt filename).1 (splitStemExt filename).2
      (existing.length + 1) 2
  else filename

/-! ## Supporting lemmas -/

/-- `natToDecCore` does not depend on the fuel, as long as it exceeds
the rendered number. -/
theorem natToDecCore_fuel_irrel : ∀ (n f1 f2 : Nat) (acc : List Char),
    n < f1 → n < f2 → natToDecCore f1 n acc = natToDecCore f2 n acc := by
  intro n
  induction n using Nat.strong_induction_on with
  | _ n ih =>
    intro f1 f2 acc h1 h2
    cases f1 with
    | zero => omega
    | succ f1 =>
      cases f2 with
      | zero => omega
      | succ f2 =>
        by_cases hn : n < 10
        · rw [natToDecCore, natToDecCore, if_pos hn, if_pos hn]
        · rw [natToDecCore, natToDecCore, if_neg hn, if_neg hn]
          have hdiv : n / 10 < n := Nat.div_lt_self (by omega) (by omega)
          exact ih (n / 10) hdiv f1 f2 _ (by omega) (by omega)

/-- The accumulator of `natToDecCore` is appended to the rendering. -/
theorem natToDecCore_eq_append : ∀ (n : Nat) (acc : List Char),
    natToDecCore (n + 1) n acc = natToDec n ++ acc := by
  intro n
  induction n using Nat.strong_induction_on with
  | _ n ih =>
    intro acc
    by_cases hn : n < 10
    · have h1 : natToDecCore (n + 1) n acc = Nat.digitChar (n % 10) :: acc := by
        rw [natToDecCore, if_pos hn]
      have h2 : natToDec n = [Nat.digitChar (n % 10)] := by
        rw [natToDec, natToDecCore, if_pos hn]
      rw [h1, h2]
      rfl
    · have hdiv : n / 10 < n := Nat.div_lt_self (by omega) (by omega)
      have h1 : natToDecCore (n + 1) n acc
          = natToDecCore n (n / 10) (Nat.digitChar (n % 10) :: acc) := by
        rw [natToDecCore, if_neg hn]
      have h2 : natToDecCore (n + 1) n ([] : List Char)
          = natToDecCore n (n / 10) [Nat.digitChar (n % 10)] := by
        rw [natToDecCore, if_neg hn]
      have h3 := natToDecCore_fuel_irrel (n / 10) n (n / 10 + 1)
        (Nat.digitChar (n % 10) :: acc) hdiv (by omega)
      have h4 := natToDecCore_fuel_irrel (n / 10) n (n / 10 + 1)
        [Nat.digitChar (n % 10)] hdiv (by omega)
      have hrhs : natToDec n = natToDec (n / 10) ++ [Nat.digitChar (n % 10)] := by
        rw [natToDec, h2, h4, ih (n / 10) hdiv]
      rw [h1, h3, ih (n / 10) hdiv, hrhs, List.append_assoc]
      rfl

/-- Folding a digit list after appending one digit. -/
theorem digitsVal_append_single (xs : List Char) (c : Char) :
    digitsVal (xs ++ [c]) = 10 * digitsVal xs + (c.toNat - 48) := by
  rw [digitsVal, digitsVal, List.foldl_append]
  rfl

/-- The decimal rendering round-trips through `digitsVal`. -/
theorem digitsVal_natToDec : ∀ n, digitsVal (natToDec n) = n := by
  intro n
  induction n using Nat.strong_induction_on with
  | _ n ih =>
    by_cases hn : n < 10
    · have h2 : natToDec n = [Nat.digitChar (n % 10)] := by
        rw [natToDec, natToDecCore, if_pos hn]
      rw [h2, Nat.mod_eq_of_lt hn]
      have hd : ∀ m, m < 10 → digitsVal [Nat.digitChar m] = m := by decide
      exact hd n hn
    · have hdiv : n / 10 < n := Nat.div_lt_self (by omega) (by omega)
      have h2 : natToDec n = natToDec (n / 10) ++ [Nat.digitChar (n % 10)] := by
        have hstep : natToDecCore (n + 1) n ([] : List Char) =
            natToDecCore n (n / 10) [Nat.digitChar (n % 10)] := by
          rw [natToDecCore, if_neg hn]
        rw [natToDec, hstep,
          natToDecCore_fuel_irrel (n / 10) n (n / 10 + 1) _ hdiv (by omega),
          natToDecCore_eq_append]
      have hd : (Nat.digitChar (n % 10)).toNat - 48 = n % 10 := by
        have hall : ∀ m, m < 10 → (Nat.digitChar m).toNat - 48 = m := by decide
        exact hall _ (Nat.mod_lt n (by omega))
      rw [h2, digitsVal_append_single, ih _ hdiv, hd]
      omega

/-- Decimal rendering is injective. -/
theorem natToDec_injective : Function.Injective natToDec := by
  intro a b h
  rw [← digitsVal_natToDec a, ← digitsVal_natToDec b, h]

/-- Candidate names with distinct counters are distinct. -/
theorem cand_name_inj (stem ext : List Char) {k1 k2 : Nat}
    (h : cand_name stem ext k1 = cand_name stem ext k2) : k1 = k2 := by
  rw [cand_name, cand_name] at h
  have h2 := List.append_cancel_left h
  have h3 := List.cons.inj h2
  have h4 := List.append_cancel_right h3.2
  exact natToDec_injective h4

/-- Among `existing.length + 1` consecutive candidate names, at least
one is unused. -/
theorem exists_fresh_cand (existing : List (List Char)) (stem ext : List Char)
    (counter : Nat) :
    ∃ j, j ≤ existing.length ∧ cand_name stem ext (counter + j) ∉ existing := by
  by_contra hall
  push_neg at hall
  have hsub : (Finset.range (existing.length + 1)).image
      (fun j => cand_name stem ext (counter + j)) ⊆ existing.toFinset := by
    intro x hx
    obtain ⟨j, hj, rfl⟩ := Finset.mem_image.1 hx
    rw [List.mem_toFinset]
    exact hall j (Nat.lt_succ_iff.1 (Finset.mem_range.1 hj))
  have hcard := Finset.card_le_card hsub
  rw [Finset.card_image_of_injective _ (fun a b hab => by
        have := cand_name_inj stem ext hab
        omega),
    Finset.card_range] at hcard
  have hlen := List.toFinset_card_le existing
  omega

/-- The collision loop returns the candidate with the least fresh
counter, provided some counter within the fuel budget is fresh. -/
theorem resolveLoop_finds_least (existing : List (List Char))
    (stem ext : List Char) :
    ∀ (fuel counter : Nat),
      (∃ j, j < fuel ∧ cand_name stem ext (counter + j) ∉ existing) →
      ∃ m, resolveLoop existing stem ext fuel counter =
          cand_name stem ext (counter + m) ∧
        cand_name stem ext (counter + m) ∉ existing ∧
        ∀ i, i < m → cand_name stem ext (counter + i) ∈ existing := by
  intro fuel
  induction fuel with
  | zero =>
    intro counter h
    obtain ⟨j, hj, _⟩ := h
    omega
  | succ fuel ih =>
    intro counter h
    by_cases hc : cand_name stem ext counter ∈ existing
    · obtain ⟨j, hj, hfree⟩ := h
      have hj0 : j ≠ 0 := by
        intro h0
        rw [h0, Nat.add_zero] at hfree
        exact hfree hc
      obtain ⟨m, hm1, hm2, hm3⟩ := ih (counter + 1)
        ⟨j - 1, by omega, by
          have heq : counter + 1 + (j - 1) = counter + j := by omega
          rw [heq]
          exact hfree⟩
      refine ⟨m + 1, ?_, ?_, ?_⟩
      · rw [resolveLoop, if_pos hc, hm1]
        congr 1
        omega
      · have heq : counter + (m + 1) = counter + 1 + m := by omega
        rw [heq]
        exact hm2
      · intro i hi
        cases i with
        | zero =>
          rw [Nat.add_zero]
          exact hc
        | succ i =>
          have heq : counter + (i + 1) = counter + 1 + i := by omega
          rw [heq]
          exact hm3 i (by omega)
    · exact ⟨0, by rw [resolveLoop, if_neg hc, Nat.add_zero],
        by rw [Nat.add_zero]; exact hc, fun i hi => by omega⟩

/-- Every `(downloaded, total)` pair the chunk loop reports carries the
`total` it was started with. -/
theorem stream_run_total (total : Nat) :
    ∀ (chunks : List (Option Nat)) (d0 : Nat) (p : Nat × Nat),
      p ∈ (stream_run total d0 chunks).1 → p.2 = total := by
  intro chunks
  induction chunks with
  | nil => intro d0 p hp; simp [stream_run] at hp
  | cons c rest ih =>
    intro d0 p hp
    cases c with
    | none => simp [stream_run] at hp
    | some sz =>
      simp only [stream_run, List.mem_cons] at hp
      rcases hp with hp1 | hp2
      · rw [hp1]
      · exact ih _ _ hp2

/-- A successful first-dash split decomposes the list, and the part
before the dash is dash-free. -/
theorem splitFirstDash_some : ∀ {cs p s : List Char},
    splitFirstDash cs = some (p, s) → cs = p ++ '-' :: s ∧ '-' ∉ p := by
  intro cs
  induction cs with
  | nil => intro p s h; cases h
  | cons c t ih =>
    intro p s h
    by_cases hc : (c == '-') = true
    · rw [splitFirstDash, if_pos hc] at h
      have h1 := Prod.mk.inj (Option.some.inj h)
      obtain ⟨h2, h3⟩ := h1
      cases h2
      cases h3
      have hc2 := eq_of_beq hc
      subst hc2
      exact ⟨rfl, List.not_mem_nil _⟩
    · rw [splitFirstDash, if_neg (by simpa using hc)] at h
      cases hsp : splitFirstDash t with
      | none => rw [hsp] at h; cases h
      | some pr =>
        rcases pr with ⟨p1, s1⟩
        rw [hsp] at h
        have h1 := Prod.mk.inj (Option.some.inj h)
        obtain ⟨h2, h3⟩ := h1
        cases h2
        cases h3
        obtain ⟨hdec, hnm⟩ := ih hsp
        refine ⟨by rw [hdec]; rfl, ?_⟩
        intro hmem
        rcases List.mem_cons.1 hmem with hm1 | hm2
        · exact hc (by rw [← hm1]; decide)
        · exact hnm hm2

/-- A dash-free decomposition determines the first-dash split. -/
theorem splitFirstDash_decomp : ∀ (a b : List Char), '-' ∉ a →
    splitFirstDash (a ++ '-' :: b) = some (a, b) := by
  intro a
  induction a with
  | nil => intro b _; rfl
  | cons c t ih =>
    intro b hnm
    have hc : (c == '-') = false := by
      rcases hbc : c == '-' with _ | _
      · rfl
      · exact absurd (List.mem_cons_self c t)
          (by rw [eq_of_beq hbc] at hnm ⊢; exact fun hm => hnm hm)
    rw [List.cons_append, splitFirstDash, if_neg (by simp [hc]),
      ih b (fun hm => hnm (List.mem_cons_of_mem c hm))]

/-- `is_valid_issue_key` accepts exactly the `PREFIX-NUMBER` shapes. -/
theorem is_valid_iff (cs : List Char) :
    is_valid_issue_keyL cs = true ↔
      ∃ a b, cs = a ++ '-' :: b ∧ a ≠ [] ∧ b ≠ [] ∧
        a.all Char.isAlpha = true ∧ b.all Char.isDigit = true := by
  constructor
  · intro hv
    cases hsp : splitFirstDash cs with
    | none => rw [is_valid_issue_keyL, hsp] at hv; cases hv
    | some pr =>
      rcases pr with ⟨pre, suf⟩
      rw [is_valid_issue_keyL, hsp] at hv
      simp only [Bool.and_eq_true, Bool.not_eq_eq_eq_not, Bool.not_true,
        List.isEmpty_eq_false] at hv
      obtain ⟨⟨⟨hp, hs⟩, ha⟩, hd⟩ := hv
      exact ⟨pre, suf, (splitFirstDash_some hsp).1, hp, hs, ha, hd⟩
  · rintro ⟨a, b, rfl, ha, hb, hall, hdig⟩
    have hnm : '-' ∉ a := by
      intro hm
      have := List.all_eq_true.1 hall '-' hm
      simp at this
    rw [is_valid_issue_keyL, splitFirstDash_decomp a b hnm]
    simp [List.isEmpty_eq_false, ha, hb, hall, hdig]

/-- `takeWhile`/`dropWhile` on a block decomposition whose second part
starts with a non-matching element. -/
theorem takeWhile_dropWhile_block (p : Char → Bool) :
    ∀ (l1 l2 : List Char), l1.all p = true →
      (∀ c, l2.head? = some c → p c = false) →
      (l1 ++ l2).takeWhile p = l1 ∧ (l1 ++ l2).dropWhile p = l2 := by
  intro l1
  induction l1 with
  | nil =>
    intro l2 _ hhead
    cases l2 with
    | nil => exact ⟨rfl, rfl⟩
    | cons c t =>
      have hc := hhead c rfl
      constructor
      · simp [List.takeWhile_cons, hc]
      · simp [List.dropWhile_cons, hc]
  | cons c t ih =>
    intro l2 hall hhead
    obtain ⟨hc, hall2⟩ := by
      rw [List.all_cons, Bool.and_eq_true] at hall; exact hall
    obtain ⟨ht, hd⟩ := ih l2 hall2 hhead
    constructor
    · simp [List.takeWhile_cons, hc, ht]
    · simp [List.dropWhile_cons, hc, hd]

/-- `spec_key_check` accepts exactly the `PREFIX-NUMBER` shapes. -/
theorem spec_key_iff (cs : List Char) :
    spec_key_check cs = true ↔
      ∃ a b, cs = a ++ '-' :: b ∧ a ≠ [] ∧ b ≠ [] ∧
        a.all Char.isAlpha = true ∧ b.all Char.isDigit = true := by
  constructor
  · intro hs
    rw [spec_key_check] at hs
    split at hs
    next rest heq =>
      simp only [Bool.and_eq_true, Bool.not_eq_eq_eq_not, Bool.not_true,
        List.isEmpty_eq_false] at hs
      obtain ⟨⟨ha, hr⟩, hdig⟩ := hs
      exact ⟨cs.takeWhile Char.isAlpha, rest,
        by rw [← heq, List.takeWhile_append_dropWhile],
        ha, hr, List.all_eq_true.2 fun x hx => List.mem_takeWhile_imp hx, hdig⟩
    next => exact Bool.noConfusion hs
  · rintro ⟨a, b, rfl, ha, hb, hall, hdig⟩
    have hhead : ∀ c, (('-' :: b : List Char)).head? = some c → Char.isAlpha c = false := by
      intro c hc
      cases Option.some.inj hc
      decide
    obtain ⟨ht, hd⟩ := takeWhile_dropWhile_block Char.isAlpha a ('-' :: b) hall hhead
    rw [spec_key_check, ht, hd]
    simp [List.isEmpty_eq_false, ha, hb, hdig]

/-- The source's first-dash shape check and the spec's
`takeWhile`-decomposition shape check agree on every input. -/
theorem valid_eq_spec (cs : List Char) :
    is_valid_issue_keyL cs = spec_key_check cs := by
  have h := (is_valid_iff cs).trans (spec_key_iff cs).symm
  cases hv : is_valid_issue_keyL cs with
  | false =>
    cases hs : spec_key_check cs with
    | false => rfl
    | true =>
      have h2 := h.2 hs
      rw [hv] at h2
      cases h2
  | true =>
    cases hs : spec_key_check cs with
    | false =>
      have h2 := h.1 hv
      rw [hs] at h2
      cases h2
    | true => rfl

/-- The source's sequential `/browse/`-`/issues/` scan equals the
spec-side `find?` over consecutive segment pairs. -/
theorem scan_parts_eq_spec : ∀ parts, scan_parts parts = spec_url_key parts := by
  intro parts
  induction parts with
  | nil => rfl
  | cons p rest ih =>
    cases rest with
    | nil => rfl
    | cons next rest2 =>
      by_cases hp : (p == "browse".data || p == "issues".data) = true
      · by_cases hk : is_valid_issue_keyL (beforeQuery next) = true
        · have hs : spec_key_check (beforeQuery next) = true := by
            rw [← valid_eq_spec]; exact hk
          calc scan_parts (p :: next :: rest2)
              = some (upperChars (beforeQuery next)) := by
                simp [scan_parts, hp, hk]
            _ = spec_url_key (p :: next :: rest2) := by
                simp [spec_url_key, List.find?_cons, hp, hs]
        · have hk2 : is_valid_issue_keyL (beforeQuery next) = false := by
            rw [← Bool.not_eq_true]; exact hk
          have hs : spec_key_check (beforeQuery next) = false := by
            rw [← valid_eq_spec]; exact hk2
          calc scan_parts (p :: next :: rest2)
              = scan_parts (next :: rest2) := by
                simp [scan_parts, hp, hk2]
            _ = spec_url_key (next :: rest2) := ih
            _ = spec_url_key (p :: next :: rest2) := by
                simp [spec_url_key, List.find?_cons, hp, hs]
      · have hp2 : (p == "browse".data || p == "issues".data) = false := by
          rw [← Bool.not_eq_true]; exact hp
        calc scan_parts (p :: next :: rest2)
            = scan_parts (next :: rest2) := by
              simp [scan_parts, hp2]
          _ = spec_url_key (next :: rest2) := ih
          _ = spec_url_key (p :: next :: rest2) := by
              simp [spec_url_key, List.find?_cons, hp2]

/-- In a `≤`-sorted list, every element is at most the last one. -/
theorem le_of_mem_sorted_getLast {l : List String}
    (hs : l.Sorted (· ≤ ·)) {m : String} (hm : l.getLast? = some m) :
    ∀ x ∈ l, x ≤ m := by
  obtain ⟨ys, rfl⟩ := List.getLast?_eq_some_iff.1 hm
  intro x hx
  rcases List.mem_append.1 hx with hx1 | hx1
  · have hs2 := List.pairwise_append.1 hs
    exact hs2.2.2 x hx1 m (List.mem_singleton_self m)
  · rw [List.mem_singleton.1 hx1]

/-- Characterization of the `scan_incidents` loop body. -/
theorem scan_entry_eq_some (parse : String → Option ControlFile)
    (e : ScanEntry) (inc : IncidentFolder) :
    scan_entry parse e = some inc ↔
      e.is_dir = true ∧ ∃ s, e.control = some (some s) ∧
        ∃ c, parse s = some c ∧ inc = ⟨e.name, c, e.size⟩ := by
  rcases e with ⟨name, isdir, ctrl, size⟩
  cases isdir with
  | false => simp [scan_entry]
  | true =>
    cases ctrl with
    | none => simp [scan_entry]
    | some co =>
      cases co with
      | none => simp [scan_entry]
      | some s =>
        cases hps : parse s with
        | none => simp [scan_entry, hps]
        | some c =>
          simp only [scan_entry, hps, Bool.not_true, Bool.false_eq_true, if_false,
            Option.some.injEq, Option.some_inj, true_and]
          constructor
          · intro h
            exact ⟨s, rfl, c, hps, h.symm⟩
          · rintro ⟨s1, hs1, c1, hc1, hinc⟩
            cases hs1
            rw [hc1] at hps
            cases hps
            exact hinc.symm

/-- Unfolding of the `start_all_downloads` loop condition. -/
theorem should_start_iff (it : DownloadItem) :
    should_start it = true ↔
      it.selected = true ∧
        (it.state = .pending ∨ (∃ e, it.state = .error e) ∨ it.state = .done) := by
  cases hst : it.state <;>
    simp [should_start, hst]

/-! ## Claim theorems -/

/-- C8: `start_all_downloads` starts a download for exactly those items
whose `selected` flag is true and whose current state is `Pending`,
`Error`, or `Done`; items in state `Downloading` or `AlreadyOnDisk` are
never started, regardless of their `selected` flag. -/
theorem start_all_downloads_selects_exactly (items : List DownloadItem)
    (it : DownloadItem) :
    (it ∈ start_all_downloads items ↔
      it ∈ items ∧ it.selected = true ∧
        (it.state = .pending ∨ (∃ e, it.state = .error e) ∨ it.state = .done)) ∧
    ((it.state = .alreadyOnDisk ∨ ∃ d t, it.state = .downloading d t) →
      it ∉ start_all_downloads items) := by
  constructor
  · rw [start_all_downloads, List.mem_filter, should_start_iff]
  · intro hstate hmem
    rw [start_all_downloads, List.mem_filter, should_start_iff] at hmem
    obtain ⟨-, -, hshape⟩ := hmem
    rcases hstate with hs | ⟨d, t, hs⟩ <;>
      rw [hs] at hshape <;>
      rcases hshape with h | ⟨e, h⟩ | h <;> cases h

/-- Witness for `start_all_downloads_selects_exactly` at a concrete
already-on-disk selected item. -/
theorem start_all_downloads_selects_exactly_witness :
    (⟨⟨"1", "a", 1, 0, "u", "m"⟩, .alreadyOnDisk, true⟩ : DownloadItem) ∉
      start_all_downloads [⟨⟨"1", "a", 1, 0, "u", "m"⟩, .alreadyOnDisk, true⟩] :=
  (start_all_downloads_selects_exactly
    [⟨⟨"1", "a", 1, 0, "u", "m"⟩, .alreadyOnDisk, true⟩]
    ⟨⟨"1", "a", 1, 0, "u", "m"⟩, .alreadyOnDisk, true⟩).2 (Or.inl rfl)

/-- C9: no progress fraction is ever computed by dividing by a zero
total: `progress_fraction` is defined exactly on `Downloading` states
with positive total (where it is `downloaded / total`) and on
`Done` / `AlreadyOnDisk` (where it is `1`), and `label` falls back to a
byte count, never a percentage, when a `Downloading` state has total 0. -/
theorem progress_fraction_never_divides_by_zero :
    (∀ s : FileState, s.progress_fraction.isSome = true ↔
        ((∃ d t, s = .downloading d t ∧ 0 < t) ∨ s = .done ∨ s = .alreadyOnDisk)) ∧
    (∀ d t, 0 < t →
      FileState.progress_fraction (.downloading d t) = some ((d : ℚ) / (t : ℚ))) ∧
    (∀ d, FileState.progress_fraction (.downloading d 0) = none) ∧
    FileState.progress_fraction .done = some 1 ∧
    FileState.progress_fraction .alreadyOnDisk = some 1 ∧
    (∀ d, FileState.label (.downloading d 0) = toString d ++ " B") := by
  refine ⟨?_, ?_, ?_, rfl, rfl, ?_⟩
  · intro s
    cases s with
    | downloading d t =>
      by_cases ht : 0 < t
      · simp only [FileState.progress_fraction, ht, if_pos, Option.isSome_some,
          true_iff]
        exact Or.inl ⟨d, t, rfl, ht⟩
      · have ht0 : t = 0 := Nat.eq_zero_of_not_pos ht
        subst ht0
        rw [show FileState.progress_fraction (.downloading d 0) = none from rfl]
        simp only [Option.isSome_none, Bool.false_eq_true, false_iff]
        rintro (⟨d1, t1, h1, ht1⟩ | h | h)
        · cases h1; exact Nat.lt_irrefl 0 ht1
        · cases h
        · cases h
    | pending => simp [FileState.progress_fraction]
    | done => simp [FileState.progress_fraction]
    | alreadyOnDisk => simp [FileState.progress_fraction]
    | error e => simp [FileState.progress_fraction]
  · intro d t ht
    simp [FileState.progress_fraction, ht]
  · intro d
    simp [FileState.progress_fraction]
  · intro d
    simp [FileState.label]

/-- Witness for `progress_fraction_never_divides_by_zero` at
`Downloading{downloaded: 1, total: 4}`. -/
theorem progress_fraction_never_divides_by_zero_witness :
    FileState.progress_fraction (.downloading 1 4) = some ((1 : ℚ) / (4 : ℚ)) :=
  progress_fraction_never_divides_by_zero.2.1 1 4 (by decide)

/-- C1 counterexample: a download unit for an attachment of declared
metadata size 5, answered by a response with *no* declared content
length, first sets `Downloading{0, 5}` — not `Downloading{0, t}` for `t`
the response's declared content length (which would be `0` here). -/
theorem first_state_not_content_length :
    (start_download_states ⟨"1", "a.bin", 5, 0, "url", "m"⟩
        (some ⟨200, none, [some 3]⟩) true).head? =
      some (.downloading 0 5) ∧
    declared_total (some ⟨200, none, [some 3]⟩) = 0 ∧
    (FileState.downloading 0 5) ≠ (.downloading 0 0) := by
  refine ⟨rfl, rfl, by decide⟩

/-- C1 (amended): the state a download unit first sets is
`Downloading{0, attachment.size}` — the size from the attachment
metadata — and every subsequent progress update sets
`Downloading{downloaded, t}` where `t` is the HTTP response's declared
content length (`0` when absent). -/
theorem first_state_is_attachment_size (att : Attachment)
    (resp : Option DlResponse) (save_ok : Bool) :
    (start_download_states att resp save_ok).head? =
      some (.downloading 0 att.size) ∧
    (∀ p ∈ (download_attachment resp).1, p.2 = declared_total resp) := by
  constructor
  · rfl
  · intro p hp
    cases resp with
    | none => simp [download_attachment] at hp
    | some r =>
      by_cases hs : is_success r.status
      · rcases hsr : stream_run (r.content_length.getD 0) 0 r.chunks with ⟨ps, ok⟩
        simp only [download_attachment, hs, Bool.not_true, Bool.false_eq_true,
          if_false, hsr] at hp
        have htot := stream_run_total (r.content_length.getD 0) r.chunks 0 p
        rw [hsr] at htot
        exact htot hp
      · simp [download_attachment, hs] at hp

/-- Witness for `first_state_is_attachment_size` at a concrete unit. -/
theorem first_state_is_attachment_size_witness :
    (3, 7) ∈ (download_attachment (some ⟨200, some 7, [some 3]⟩)).1 ∧
    (3, 7).2 = declared_total (some ⟨200, some 7, [some 3]⟩) :=
  ⟨by decide,
   (first_state_is_attachment_size ⟨"1", "a.bin", 5, 0, "url", "m"⟩
      (some ⟨200, some 7, [some 3]⟩) true).2 (3, 7) (by decide)⟩

/-- C2 counterexample: fetching an issue whose status is already closed
produces, via `ControlFile::new`, a persisted record whose stored status
is classified closed while `marked_for_deletion` is `false` — the
claimed iff fails at creation time. -/
theorem control_file_new_breaks_iff :
    (ControlFile.new "PROJ-1" "summary" "Closed" 0).is_closed = true ∧
    (ControlFile.new "PROJ-1" "summary" "Closed" 0).marked_for_deletion = false := by
  constructor
  · decide
  · rfl

/-- C5: `fetch_issue` treats a 404 from the v3 endpoint as "try the next
version": when v3 answers 404 (non-HTML) and v2 answers 200 with a
parseable issue body, the call succeeds with the parsed issue and
surfaces no error; any other non-2xx status on either version is
terminal for the call. -/
theorem fetch_issue_v3_404_falls_back_to_v2 :
    (∀ get parse r3 r2 j,
      get "3" = some r3 → r3.status = 404 → check_html_response r3 = false →
      get "2" = some r2 → r2.status = 200 → check_html_response r2 = false →
      parse r2.body = some j →
      fetch_issue get parse = .ok (issue_of_response j)) ∧
    (∀ get parse r3,
      get "3" = some r3 → check_html_response r3 = false →
      is_success r3.status = false → r3.status ≠ 404 →
      fetch_issue get parse = .error (.httpStatus r3.status)) ∧
    (∀ get parse r3 r2,
      get "3" = some r3 → r3.status = 404 → check_html_response r3 = false →
      get "2" = some r2 → check_html_response r2 = false →
      is_success r2.status = false →
      fetch_issue get parse = .error (.httpStatus r2.status)) := by
  refine ⟨?_, ?_, ?_⟩
  · intro get parse r3 r2 j h3 h3s h3h h2 h2s h2h hp
    simp [fetch_issue, fetch_issue_loop, h3, h2, h3h, h2h, h3s, h2s, hp, is_success]
  · intro get parse r3 h3 h3h h3s h3ne
    have hne : (r3.status == 404) = false := by
      simp [h3ne]
    simp [fetch_issue, fetch_issue_loop, h3, h3h, hne, h3s]
  · intro get parse r3 r2 h3 h3s h3h h2 h2h h2s
    simp [fetch_issue, fetch_issue_loop, h3, h2, h3h, h2h, h3s, h2s]

/-- Witness for `fetch_issue_v3_404_falls_back_to_v2`: a fake server
returning 404 on v3 and 200 with a parseable body on v2. -/
theorem fetch_issue_v3_404_falls_back_to_v2_witness :
    fetch_issue
      (fun v => if v == "3" then some ⟨404, "application/json", "{}"⟩
                else some ⟨200, "application/json", "issue-body"⟩)
      (fun b => if b == "issue-body" then some ⟨"OPS-1", "s", "Open", []⟩
                else none) =
      .ok (issue_of_response ⟨"OPS-1", "s", "Open", []⟩) :=
  fetch_issue_v3_404_falls_back_to_v2.1
    (fun v => if v == "3" then some ⟨404, "application/json", "{}"⟩
              else some ⟨200, "application/json", "issue-body"⟩)
    (fun b => if b == "issue-body" then some ⟨"OPS-1", "s", "Open", []⟩
              else none)
    ⟨404, "application/json", "{}"⟩ ⟨200, "application/json", "issue-body"⟩
    ⟨"OPS-1", "s", "Open", []⟩
    rfl rfl (by decide) rfl rfl (by decide) (by decide)

/-- C10: `scan_incidents` never fails: for every state of the base
directory it returns a (possibly empty) list containing exactly the
immediate subdirectories whose control file both exists and parses as a
valid `ControlFile`; a malformed or unreadable control file is silently
omitted exactly like a missing one, and an unreadable base directory
yields the empty list. -/
theorem scan_incidents_never_fails (parse : String → Option ControlFile) :
    scan_incidents parse none = [] ∧
    ∀ es inc, inc ∈ scan_incidents parse (some es) ↔
      ∃ e ∈ es, e.is_dir = true ∧ ∃ s, e.control = some (some s) ∧
        ∃ c, parse s = some c ∧ inc = ⟨e.name, c, e.size⟩ := by
  refine ⟨rfl, fun es inc => ?_⟩
  rw [scan_incidents, (List.perm_insertionSort _ _).mem_iff, List.mem_filterMap]
  constructor
  · rintro ⟨e, he, hse⟩
    exact ⟨e, he, (scan_entry_eq_some parse e inc).1 hse⟩
  · rintro ⟨e, he, h⟩
    exact ⟨e, he, (scan_entry_eq_some parse e inc).2 h⟩

/-- C4 counterexample: the directory name `"abcd-ef-gh"` passes the
code's date-folder filter (length 10, dashes at byte positions 4 and 7
— no digit check) although it does not match the strict `YYYY-MM-DD`
shape, and `latest_date_folder` therefore returns it instead of falling
back to the issue root. -/
theorem latest_date_folder_accepts_non_date :
    latest_date_folder (some [("abcd-ef-gh", true)]) = some "abcd-ef-gh" ∧
    date_name_ok "abcd-ef-gh" = true ∧
    strict_date_shape "abcd-ef-gh" = false := by
  refine ⟨rfl, by decide, by decide⟩

/-- C4 (amended): `latest_date_folder` considers exactly the
subdirectories whose names have UTF-8 byte length 10 with a dash at byte
positions 4 and 7 (the digit positions are not checked), returns the
lexicographically greatest such subdirectory, and falls back to the
issue root (modelled as `none`) when no such subdirectory exists — also
when the issue directory is unreadable. -/
theorem latest_date_folder_loose_filter_max :
    latest_date_folder none = none ∧
    (∀ es, latest_date_folder (some es) = none ↔
        ∀ e ∈ es, ¬(e.2 = true ∧ date_name_ok e.1 = true)) ∧
    (∀ es m, latest_date_folder (some es) = some m →
        (∃ e ∈ es, e.1 = m ∧ e.2 = true ∧ date_name_ok e.1 = true) ∧
        ∀ e ∈ es, e.2 = true → date_name_ok e.1 = true → e.1 ≤ m) := by
  refine ⟨rfl, ?_, ?_⟩
  · intro es
    rw [latest_date_folder]
    have hp := List.perm_insertionSort (fun a b : String => a ≤ b)
      ((es.filter (fun e => e.2 && date_name_ok e.1)).map (fun e => e.1))
    rw [List.getLast?_eq_none_iff]
    constructor
    · intro h
      have hnil := (h ▸ hp).symm.eq_nil
      rw [List.map_eq_nil_iff, List.filter_eq_nil_iff] at hnil
      intro e he hcond
      exact hnil e he (by simp [hcond.1, hcond.2])
    · intro h
      have hnil : (es.filter (fun e => e.2 && date_name_ok e.1)).map (fun e => e.1) = [] := by
        rw [List.map_eq_nil_iff, List.filter_eq_nil_iff]
        intro e he
        simp only [Bool.and_eq_true]
        intro hcond
        exact h e he ⟨hcond.1, hcond.2⟩
      rw [hnil] at hp ⊢
      exact hp.eq_nil
  · intro es m h
    rw [latest_date_folder] at h
    have hp := List.perm_insertionSort (fun a b : String => a ≤ b)
      ((es.filter (fun e => e.2 && date_name_ok e.1)).map (fun e => e.1))
    have hsorted := List.sorted_insertionSort (fun a b : String => a ≤ b)
      ((es.filter (fun e => e.2 && date_name_ok e.1)).map (fun e => e.1))
    have hmem : m ∈ (((es.filter (fun e => e.2 && date_name_ok e.1)).map
        (fun e => e.1)).insertionSort (fun a b : String => a ≤ b)) := by
      obtain ⟨ys, hys⟩ := List.getLast?_eq_some_iff.1 h
      rw [hys]
      simp
    constructor
    · have hm_l := hp.subset hmem
      obtain ⟨e, hef, hem⟩ := List.mem_map.1 hm_l
      obtain ⟨hees, hecond⟩ := List.mem_filter.1 hef
      rw [Bool.and_eq_true] at hecond
      exact ⟨e, hees, hem, hecond.1, hecond.2⟩
    · intro e he h2 hdn
      have hel : e.1 ∈ (es.filter (fun x => x.2 && date_name_ok x.1)).map
          (fun x => x.1) :=
        List.mem_map.2 ⟨e, List.mem_filter.2 ⟨he, by simp [h2, hdn]⟩, rfl⟩
      exact le_of_mem_sorted_getLast hsorted h e.1 (hp.mem_iff.2 hel)

/-- C3 counterexample: a tracker URL containing no `/browse/` or
`/issues/` path segment, and not itself of `PREFIX-NUMBER` shape, still
yields a key: `parse_issue_key` falls back to the URL's last path
segment, where the claim requires none. -/
theorem parse_issue_key_url_fallback_counterexample :
    parse_issue_key "https://tracker.example.com/PROJ-7" = some "PROJ-7" ∧
    is_valid_issue_key "https://tracker.example.com/PROJ-7" = false ∧
    (splitOnChar '/' (trimChars "https://tracker.example.com/PROJ-7".data)).all
      (fun p => !(p == "browse".data) && !(p == "issues".data)) = true := by
  refine ⟨by decide, by decide, by decide⟩

/-- C3 (amended): `parse_issue_key` is total and behaves as follows on
the trimmed input: an input matching `PREFIX-NUMBER` (nonempty
alphabetic run, dash, nonempty digit run; any case) and not starting
with `http` is returned uppercased; an input starting with `http` is
split on `/`, and the first `browse` or `issues` segment immediately
followed by a key-shaped segment (query stripped) yields that key
uppercased, otherwise the last segment (query stripped) yields itself
uppercased when key-shaped; every other input yields none. -/
theorem parse_issue_key_amended :
    (∀ s, parse_issue_key s = parse_issue_key_spec s) ∧
    (∀ s, startsWithL (trimChars s.data) "http".data = false →
      spec_key_check (trimChars s.data) = true →
      parse_issue_key s = some ⟨upperChars (trimChars s.data)⟩) ∧
    (∀ s, startsWithL (trimChars s.data) "http".data = false →
      spec_key_check (trimChars s.data) = false →
      parse_issue_key s = none) := by
  refine ⟨?_, ?_, ?_⟩
  · intro s
    simp only [parse_issue_key, parse_issue_key_spec, scan_parts_eq_spec,
      valid_eq_spec]
  · intro s h1 h2
    rw [parse_issue_key]
    simp only [h1, Bool.false_eq_true, if_false, valid_eq_spec, h2, if_true]
  · intro s h1 h2
    rw [parse_issue_key]
    simp only [h1, Bool.false_eq_true, if_false, valid_eq_spec, h2]

/-- Witness for `parse_issue_key_amended`: the spec's own example
`"proj-123"`. -/
theorem parse_issue_key_amended_witness :
    parse_issue_key "proj-123" =
      some ⟨upperChars (trimChars "proj-123".data)⟩ :=
  parse_issue_key_amended.2.1 "proj-123" (by decide) (by decide)

/-- C6: filename collision resolution never returns a name that already
exists in the target directory; when the name is taken it returns
`stem_k.ext` for the least free counter `k ≥ 2` (every smaller counter
from 2 on being taken), and in particular, given existing `report.pdf`
and `report_2.pdf`, resolving `report.pdf` yields `report_3.pdf`. -/
theorem resolve_conflict_never_collides :
    (∀ existing filename, resolve_conflict existing filename ∉ existing) ∧
    (∀ existing filename, filename ∈ existing →
      ∃ k, 2 ≤ k ∧
        resolve_conflict existing filename =
          cand_name (splitStemExt filename).1 (splitStemExt filename).2 k ∧
        cand_name (splitStemExt filename).1 (splitStemExt filename).2 k ∉ existing ∧
        ∀ j, 2 ≤ j → j < k →
          cand_name (splitStemExt filename).1 (splitStemExt filename).2 j ∈ existing) ∧
    resolve_conflict ["report.pdf".data, "report_2.pdf".data] "report.pdf".data =
      "report_3.pdf".data := by
  have main : ∀ (existing : List (List Char)) (filename : List Char),
      filename ∈ existing →
      ∃ m, resolveLoop existing (splitStemExt filename).1 (splitStemExt filename).2
          (existing.length + 1) 2 =
        cand_name (splitStemExt filename).1 (splitStemExt filename).2 (2 + m) ∧
        cand_name (splitStemExt filename).1 (splitStemExt filename).2 (2 + m)
          ∉ existing ∧
        ∀ i, i < m →
          cand_name (splitStemExt filename).1 (splitStemExt filename).2 (2 + i)
            ∈ existing := by
    intro existing filename _
    obtain ⟨j, hj, hfree⟩ :=
      exists_fresh_cand existing (splitStemExt filename).1 (splitStemExt filename).2 2
    exact resolveLoop_finds_least existing _ _ (existing.length + 1) 2
      ⟨j, by omega, hfree⟩
  refine ⟨?_, ?_, by decide⟩
  · intro existing filename
    by_cases hmem : filename ∈ existing
    · obtain ⟨m, heq, hfree, -⟩ := main existing filename hmem
      rw [resolve_conflict, if_pos hmem, heq]
      exact hfree
    · rw [resolve_conflict, if_neg hmem]
      exact hmem
  · intro existing filename hmem
    obtain ⟨m, heq, hfree, hleast⟩ := main existing filename hmem
    refine ⟨2 + m, by omega, ?_, hfree, ?_⟩
    · rw [resolve_conflict, if_pos hmem, heq]
    · intro j hj2 hjm
      have hji : j = 2 + (j - 2) := by omega
      rw [hji]
      exact hleast (j - 2) (by omega)

/-- Witness for `resolve_conflict_never_collides` at a directory
containing only `a.txt`. -/
theorem resolve_conflict_never_collides_witness :
    ∃ k, 2 ≤ k ∧
      resolve_conflict ["a.txt".data] "a.txt".data =
        cand_name (splitStemExt "a.txt".data).1 (splitStemExt "a.txt".data).2 k ∧
      cand_name (splitStemExt "a.txt".data).1 (splitStemExt "a.txt".data).2 k
        ∉ ["a.txt".data] ∧
      ∀ j, 2 ≤ j → j < k →
        cand_name (splitStemExt "a.txt".data).1 (splitStemExt "a.txt".data).2 j
          ∈ ["a.txt".data] :=
  resolve_conflict_never_collides.2.1 ["a.txt".data] "a.txt".data (by decide)

/-- C7: the attachment timestamp parser accepts all three encodings —
RFC3339 with colon in the offset, offset without colon with fractional
seconds, and offset without colon without fractional seconds — and maps
the three example strings to the identical UTC instant
(2024-01-15T10:30:00Z = 1705314600000 ms since the epoch). -/
theorem jira_date_three_encodings_same_instant :
    deserialize_jira_date "2024-01-15T10:30:00.000+0000" = some 1705314600000 ∧
    deserialize_jira_date "2024-01-15T10:30:00+00:00" = some 1705314600000 ∧
    deserialize_jira_date "2024-01-15T10:30:00+0000" = some 1705314600000 := by
  refine ⟨by decide, by decide, by decide⟩

/-- C2 (amended): `ControlFile::new` sets `marked_for_deletion` to
`false` unconditionally, regardless of the stored status; after every
successful status-check update, the persisted record satisfies the iff:
`marked_for_deletion` is true exactly when the stored `issue_status` is
classified closed. -/
theorem marked_for_deletion_iff_closed :
    (∀ key summary status now,
      (ControlFile.new key summary status now).marked_for_deletion = false) ∧
    (∀ c status now,
      (check_status_update c status now).issue_status = status ∧
      ((check_status_update c status now).marked_for_deletion = true ↔
        (check_status_update c status now).is_closed = true)) := by
  exact ⟨fun _ _ _ _ => rfl, fun c status now => ⟨rfl, Iff.rfl⟩⟩

end JiraDL
